import Mathlib

/-!
Shallow embedding of `src/book_index.py` ("Automated PDF Book Index Generator").

Conventions of the embedding:
- Python `str` is Lean `String` / `List Char`; Python `int` is `ℤ` (page counts can
  be negative if the external tool prints a negative number) or `ℕ` where the value
  is a byte count coming from the filesystem.
- Python `float` arithmetic in `human_size` is modelled over `ℚ`: the only float
  operation performed is division by 1024, which is exact on binary floating point
  for every value reachable from a byte count below 2^53, and the `:.2f` rendering
  is modelled as round-half-even to two decimals of the exact value.
- The external `pdfinfo` process is modelled by its observable outcome: `none`
  when `subprocess.run` itself raises (launch failure, decode error), `some out`
  when it completes with standard output `out` (exit status is ignored by the code).
- A file on disk is modelled by a `FileEntry` carrying the filesystem facts the
  program reads: name, resolved path, `st_size`, the byte content as seen by
  `open`/`read` (`none` when opening or reading raises `OSError`), and the
  `pdfinfo` outcome for that file.
- Fallible code returns `Except String` (the error value standing for the Python
  exception object); code the source wraps in `try/except` is total.
- Unicode-only behaviours (non-ASCII whitespace classes, non-ASCII digits in
  `int()`, Unicode line separators in `splitlines`, non-ASCII `str.lower`) are
  modelled by their ASCII restrictions.
-/

/-- Python whitespace characters recognised by `str.strip()` (ASCII range). -/
def isPyWS (c : Char) : Bool :=
  c == ' ' || c == '\t' || c == '\n' || c == '\r' || c == '\x0b' || c == '\x0c'

/-- Model of Python `str.strip()` on a character list. -/
def pyStrip (l : List Char) : List Char :=
  ((l.dropWhile isPyWS).reverse.dropWhile isPyWS).reverse

/-- Model of Python `str.strip()` on a `String`. -/
def pyStripS (s : String) : String :=
  String.mk (pyStrip s.data)

/-- Accumulator pass of `splitlines`: splits on `\n`, `\r` and `\r\n`, with no
trailing empty line for a trailing terminator, as Python's `str.splitlines` does.
The boolean records that the previous character was a `\r`, so that the `\n` of a
`\r\n` pair is swallowed rather than producing an extra empty line. -/
def splitlinesAux : Bool → List Char → List Char → List (List Char)
  | _, [], acc => if acc.isEmpty then [] else [acc.reverse]
  | afterCR, c :: rest, acc =>
    if afterCR && c = '\n' then splitlinesAux false rest acc
    else if c = '\r' then acc.reverse :: splitlinesAux true rest []
    else if c = '\n' then acc.reverse :: splitlinesAux false rest []
    else splitlinesAux false rest (c :: acc)

/-- Model of Python `str.splitlines()`. -/
def pySplitlines (s : String) : List (List Char) :=
  splitlinesAux false s.data []

/-- Finds the first `':'` of a line and splits there; `none` when the line has no
colon.  This combines the source's `":" in line` test with `line.split(":", 1)`. -/
def splitFirstColon : List Char → Option (List Char × List Char)
  | [] => none
  | c :: rest =>
    if c = ':' then some ([], rest)
    else (splitFirstColon rest).map (fun p => (c :: p.1, p.2))

/-- Python `dict` assignment `d[k] = v`: overwrites the value in place when the key
exists, appends otherwise, so keys stay unique and `find?` is `dict.get`. -/
def dictInsert (d : List (String × String)) (k v : String) : List (String × String) :=
  if d.any (fun p => p.1 == k) then d.map (fun p => if p.1 == k then (k, v) else p)
  else d ++ [(k, v)]

/-- Python `dict.get k` (without default) as an `Option`. -/
def dictGet (d : List (String × String)) (k : String) : Option String :=
  (d.find? (fun p => p.1 == k)).map (·.2)

/-- The metadata-parsing loop of `extract_pdf_metadata` (book_index.py lines
56-60): for each line of the process output that contains a colon, split at the
first colon, strip both halves, and assign into the dict. -/
def parseKV (out : String) : List (String × String) :=
  (pySplitlines out).foldl (fun meta line =>
    match splitFirstColon line with
    | none => meta
    | some kv => dictInsert meta (String.mk (pyStrip kv.1)) (String.mk (pyStrip kv.2))) []

/-- Guard for `_` placement in Python integer literals: underscores only strictly
between digits and never doubled. -/
def noDoubleUnderscore : List Char → Bool
  | [] => true
  | c :: rest =>
    if c = '_' then
      match rest with
      | '_' :: _ => false
      | _ => noDoubleUnderscore rest
    else noDoubleUnderscore rest

/-- Digit-string validity for Python `int()`: nonempty, all digits or underscores,
first and last characters digits, no doubled underscore. -/
def validDigits (l : List Char) : Bool :=
  !l.isEmpty && (l.headD '_').isDigit && (l.getLastD '_').isDigit &&
  l.all (fun c => c.isDigit || c == '_') && noDoubleUnderscore l

/-- Numeric value of a digit list (underscores removed by the caller). -/
def digitsToNat (l : List Char) : ℕ :=
  l.foldl (fun n c => 10 * n + (c.toNat - '0'.toNat)) 0

/-- Unsigned part of Python `int(str)`. -/
def pyIntDigits (l : List Char) : Option ℕ :=
  if validDigits l then some (digitsToNat (l.filter (fun c => !(c == '_')))) else none

/-- Model of Python `int(s)` on a string: strips whitespace, optional sign, digits
with optional single underscores between digits; `none` when `int` would raise
`ValueError`.  (Restricted to ASCII digits, see the module docstring.) -/
def pyInt (s : String) : Option ℤ :=
  match pyStrip s.data with
  | '+' :: rest => (pyIntDigits rest).map (fun n => (n : ℤ))
  | '-' :: rest => (pyIntDigits rest).map (fun n => -(n : ℤ))
  | l => (pyIntDigits l).map (fun n => (n : ℤ))

/-- Result triple of `extract_pdf_metadata`. -/
structure PdfMeta where
  title : String
  author : String
  pages : ℤ
deriving DecidableEq

/-- Model of `extract_pdf_metadata` (book_index.py lines 47-73).  `stem` is
`path.stem`; `procResult` is the `pdfinfo` outcome (`none` = `subprocess.run`
raised).  A present-but-malformed `Pages` value makes `int()` raise `ValueError`,
which the blanket `except Exception` turns into the full fallback triple. -/
def extract_pdf_metadata (stem : String) (procResult : Option String) : PdfMeta :=
  match procResult with
  | none => { title := stem, author := "Unknown", pages := 0 }
  | some out =>
    let meta := parseKV out
    match dictGet meta "Pages" with
    | none =>
      { title := (dictGet meta "Title").getD stem
        author := (dictGet meta "Author").getD "Unknown"
        pages := 0 }
    | some s =>
      match pyInt s with
      | none => { title := stem, author := "Unknown", pages := 0 }
      | some n =>
        { title := (dictGet meta "Title").getD stem
          author := (dictGet meta "Author").getD "Unknown"
          pages := n }

/-- Round-half-even of the fraction `a / b` (for `b > 0`), the rounding used by
Python's fixed-point `format` on the exact value of a float. -/
def rhe2 (a b : ℕ) : ℕ :=
  let q := a / b
  let r := a % b
  if 2 * r < b then q else if b < 2 * r then q + 1 else if q % 2 = 0 then q else q + 1

/-- Model of the Python format spec `:.2f` applied to the non-negative value
`n / d`: the integer part, a point, then exactly two rounded decimal digits.
The running float of `human_size` is carried as the exact fraction `n / d`;
each division the source performs multiplies `d` by 1024 (binary-float division
by 1024 is exact), so this renders exactly what the Python `f`-string renders. -/
def formatFrac2 (n d : ℕ) : String :=
  let c := rhe2 (n * 100) d
  toString (c / 100) ++ "." ++ String.mk [Nat.digitChar (c % 100 / 10), Nat.digitChar (c % 10)]

/-- Loop of `human_size` (book_index.py lines 39-44): try each unit, return at the
first value below 1024, otherwise divide by 1024 and move on; `PB` when the unit
list is exhausted.  The current value is the fraction `n / d`; the comparison
`num_bytes < 1024` is the exact `n < 1024 * d`, and `num_bytes /= 1024` is
`d := 1024 * d`. -/
def humanSizeAux : ℕ → ℕ → List String → String
  | n, d, [] => formatFrac2 n d ++ " PB"
  | n, d, u :: rest =>
    if n < 1024 * d then formatFrac2 n d ++ " " ++ u else humanSizeAux n (1024 * d) rest

/-- Model of `human_size` (book_index.py lines 39-44). -/
def human_size (num_bytes : ℕ) : String :=
  humanSizeAux num_bytes 1 ["B", "KB", "MB", "GB", "TB"]

/-- The unit that `k` divisions by 1024 selects. -/
def unitOf (k : ℕ) : String :=
  (["B", "KB", "MB", "GB", "TB", "PB"]).getD k "PB"

/-- One Record of the index (book_index.py lines 90-99). -/
structure Record where
  filename : String
  path : String
  size_bytes : ℕ
  size_human : String
  pages : ℤ
  title : String
  author : String
  sha256 : String
deriving DecidableEq

/-- Result of `compute_stats` (book_index.py lines 141-155).  `avg_pages` is a
rational: `statistics.mean` returns an exact mean for integer data. -/
structure Stats where
  count : ℕ
  total_pages : ℤ
  total_size_bytes : ℕ
  total_size_human : String
  avg_pages : ℚ
  largest_file : String
  smallest_file : String
deriving DecidableEq

/-- Python `max(records, key=lambda x: x["size_bytes"])`: first maximal element. -/
def pyMaxBySize : List Record → Option Record
  | [] => none
  | r :: rs => some (rs.foldl (fun acc x => if acc.size_bytes < x.size_bytes then x else acc) r)

/-- Python `min(records, key=lambda x: x["size_bytes"])`: first minimal element. -/
def pyMinBySize : List Record → Option Record
  | [] => none
  | r :: rs => some (rs.foldl (fun acc x => if x.size_bytes < acc.size_bytes then x else acc) r)

/-- Model of `compute_stats` (book_index.py lines 141-155). -/
def compute_stats (records : List Record) : Stats :=
  let total_pages := (records.map (·.pages)).sum
  let total_size := (records.map (·.size_bytes)).sum
  let pages_list : List ℤ := (records.filter (fun r => 0 < r.pages)).map (·.pages)
  { count := records.length
    total_pages := total_pages
    total_size_bytes := total_size
    total_size_human := human_size total_size
    avg_pages := if pages_list.isEmpty then 0 else (pages_list.sum : ℚ) / pages_list.length
    largest_file := ((pyMaxBySize records).map (·.filename)).getD "N/A"
    smallest_file := ((pyMinBySize records).map (·.filename)).getD "N/A" }

/-- Chunk size of the hashing read loop (book_index.py line 24). -/
def CHUNK_SIZE : ℕ := 1024 * 1024

/-- Word addition modulo 2^32. -/
def wadd (a b : ℕ) : ℕ := (a + b) % 4294967296

/-- Right rotation of a 32-bit word. -/
def rotr32 (k n : ℕ) : ℕ := ((n >>> k) ||| (n <<< (32 - k))) % 4294967296

/-- SHA-256 choice function; 32-bit complement is xor with the all-ones mask. -/
def shaCh (x y z : ℕ) : ℕ := (x &&& y) ^^^ ((x ^^^ 4294967295) &&& z)

/-- SHA-256 majority function. -/
def shaMaj (x y z : ℕ) : ℕ := (x &&& y) ^^^ (x &&& z) ^^^ (y &&& z)

/-- SHA-256 Σ₀. -/
def bigSig0 (x : ℕ) : ℕ := rotr32 2 x ^^^ rotr32 13 x ^^^ rotr32 22 x

/-- SHA-256 Σ₁. -/
def bigSig1 (x : ℕ) : ℕ := rotr32 6 x ^^^ rotr32 11 x ^^^ rotr32 25 x

/-- SHA-256 σ₀. -/
def smallSig0 (x : ℕ) : ℕ := rotr32 7 x ^^^ rotr32 18 x ^^^ (x >>> 3)

/-- SHA-256 σ₁. -/
def smallSig1 (x : ℕ) : ℕ := rotr32 17 x ^^^ rotr32 19 x ^^^ (x >>> 10)

/-- SHA-256 round constants (FIPS 180-4, written in decimal). -/
def shaK : List ℕ :=
  [1116352408, 1899447441, 3049323471, 3921009573, 961987163, 1508970993,
   2453635748, 2870763221, 3624381080, 310598401, 607225278, 1426881987,
   1925078388, 2162078206, 2614888103, 3248222580, 3835390401, 4022224774,
   264347078, 604807628, 770255983, 1249150122, 1555081692, 1996064986,
   2554220882, 2821834349, 2952996808, 3210313671, 3336571891, 3584528711,
   113926993, 338241895, 666307205, 773529912, 1294757372, 1396182291,
   1695183700, 1986661051, 2177026350, 2456956037, 2730485921, 2820302411,
   3259730800, 3345764771, 3516065817, 3600352804, 4094571909, 275423344,
   430227734, 506948616, 659060556, 883997877, 958139571, 1322822218,
   1537002063, 1747873779, 1955562222, 2024104815, 2227730452, 2361852424,
   2428436474, 2756734187, 3204031479, 3329325298]

/-- SHA-256 working state: eight 32-bit words. -/
structure H8 where
  a : ℕ
  b : ℕ
  c : ℕ
  d : ℕ
  e : ℕ
  f : ℕ
  g : ℕ
  h : ℕ
deriving DecidableEq

/-- SHA-256 initial hash value (FIPS 180-4, written in decimal). -/
def initH : H8 :=
  ⟨1779033703, 3144134277, 1013904242, 2773480762,
   1359893119, 2600822924, 528734635, 1541459225⟩

/-- Message schedule: extends the 16 block words to 64. -/
def msgSchedule (block : List ℕ) : Array ℕ :=
  (List.range 48).foldl
    (fun w i =>
      let t := i + 16
      w.push (wadd (wadd (smallSig1 (w.getD (t - 2) 0)) (w.getD (t - 7) 0))
                   (wadd (smallSig0 (w.getD (t - 15) 0)) (w.getD (t - 16) 0))))
    block.toArray

/-- One SHA-256 compression round. -/
def compressStep (w : Array ℕ) (s : H8) (t : ℕ) : H8 :=
  let t1 := wadd (wadd (wadd s.h (bigSig1 s.e)) (wadd (shaCh s.e s.f s.g) (shaK.getD t 0)))
              (w.getD t 0)
  let t2 := wadd (bigSig0 s.a) (shaMaj s.a s.b s.c)
  ⟨wadd t1 t2, s.a, s.b, s.c, wadd s.d t1, s.e, s.f, s.g⟩

/-- SHA-256 compression of one 512-bit block into the running hash. -/
def compressBlock (hs : H8) (block : List ℕ) : H8 :=
  let w := msgSchedule block
  let f := (List.range 64).foldl (compressStep w) hs
  ⟨wadd hs.a f.a, wadd hs.b f.b, wadd hs.c f.c, wadd hs.d f.d,
   wadd hs.e f.e, wadd hs.f f.f, wadd hs.g f.g, wadd hs.h f.h⟩

/-- Big-endian 8-byte encoding of a length in bits. -/
def beBytes8 (n : ℕ) : List ℕ :=
  (List.range 8).map (fun i => (n >>> (8 * (7 - i))) % 256)

/-- SHA-256 padding: `0x80`, zeros to a 64-byte boundary, 8-byte bit length. -/
def padMsg (msg : List ℕ) : List ℕ :=
  msg ++ 0x80 :: (List.replicate ((64 - (msg.length + 9) % 64) % 64) 0 ++ beBytes8 (8 * msg.length))

/-- Groups bytes four at a time into big-endian 32-bit words. -/
def toWordsBE : List ℕ → List ℕ
  | b0 :: b1 :: b2 :: b3 :: rest => (((b0 * 256 + b1) * 256 + b2) * 256 + b3) :: toWordsBE rest
  | _ => []

/-- Accumulator pass of `chunksOf`: `c` is the remaining capacity of the chunk
being collected in `acc`. -/
def chunksAux (k : ℕ) : ℕ → List α → List α → List (List α)
  | _, [], acc => if acc.isEmpty then [] else [acc.reverse]
  | c, x :: xs, acc =>
    if c ≤ 1 then (x :: acc).reverse :: chunksAux k k xs []
    else chunksAux k (c - 1) xs (x :: acc)

/-- Splits a list into consecutive chunks of `k` elements (last chunk shorter);
models both the `f.read(CHUNK_SIZE)` loop and SHA-256's 64-byte blocking. -/
def chunksOf (k : ℕ) (l : List α) : List (List α) := chunksAux k k l []

/-- The eight 32-bit words of the SHA-256 digest of a byte list. -/
def sha256words (msg : List ℕ) : List ℕ :=
  let hf := (chunksOf 64 (padMsg msg)).foldl (fun hs b => compressBlock hs (toWordsBE b)) initH
  [hf.a, hf.b, hf.c, hf.d, hf.e, hf.f, hf.g, hf.h]

/-- Eight lowercase hex characters of a 32-bit word. -/
def hexw (w : ℕ) : List Char :=
  (List.range 8).map (fun i => Nat.digitChar ((w >>> (4 * (7 - i))) % 16))

/-- Model of `hashlib.sha256(...).hexdigest()`: lowercase hex of the 256-bit
digest. -/
def sha256hex (msg : List ℕ) : String :=
  String.mk ((sha256words msg).map hexw).flatten

/-- One file on disk, by the facts the program reads from it: base name, resolved
absolute path, `st_size`, the byte content delivered by `open`/`read` (`none`
when reading raises `OSError`), and the `pdfinfo` outcome for this file. -/
structure FileEntry where
  name : String
  resolved : String
  size : ℕ
  content : Option (List ℕ)
  procOut : Option String

/-- Model of `pathlib.Path.stem`: the name without its last suffix, where a
suffix needs a dot that is neither the first nor past the last character. -/
def pathStem (name : String) : String :=
  let cs := name.data
  match ((cs.enum.filter (fun p => p.2 = '.')).getLast?).map (·.1) with
  | some i => if 0 < i ∧ i < cs.length - 1 then String.mk (cs.take i) else name
  | none => name

/-- Model of `sha256_file` (book_index.py lines 31-36): reads the file in
`CHUNK_SIZE` blocks, each `hasher.update` appending the chunk to the hashed
stream, then returns the hex digest; an unreadable file raises `OSError`,
modelled as `Except.error` carrying the failing path. -/
def sha256_file (f : FileEntry) : Except String String :=
  match f.content with
  | none => Except.error f.resolved
  | some bytes => Except.ok (sha256hex ((chunksOf CHUNK_SIZE bytes).foldl (· ++ ·) []))

/-- Model of `build_index` (book_index.py lines 80-103): one Record per file in
discovery order; metadata extraction is total, while a hashing error propagates
(aborting the whole run, records of earlier files included). -/
def build_index : List FileEntry → Except String (List Record)
  | [] => Except.ok []
  | f :: fs =>
    let metadata := extract_pdf_metadata (pathStem f.name) f.procOut
    match sha256_file f with
    | Except.error e => Except.error e
    | Except.ok digest =>
      match build_index fs with
      | Except.error e => Except.error e
      | Except.ok rest =>
        Except.ok ({ filename := f.name, path := f.resolved, size_bytes := f.size,
                     size_human := human_size f.size, pages := metadata.pages,
                     title := metadata.title, author := metadata.author,
                     sha256 := digest } :: rest)

/-- Model of Python `str.lower()` (ASCII range). -/
def pyLower (s : String) : String := String.mk (s.data.map Char.toLower)

/-- The sort key `lambda x: x["title"].lower()` of `generate_markdown`. -/
def titleKey (r : Record) : String := pyLower r.title

/-- Lexicographic less-or-equal on character lists by code point, the comparison
Python uses between `str` sort keys.  `lexLe a b = true` is proved equivalent to
`String.le` below (`lexLe_iff_le`). -/
def lexLe : List Char → List Char → Bool
  | [], _ => true
  | _ :: _, [] => false
  | c :: cs, d :: ds => if c < d then true else if d < c then false else lexLe cs ds

/-- Model of `sorted(records, key=lambda x: x["title"].lower())` (book_index.py
line 129): a stable ascending sort by the lowercased title. -/
def sortedRecords (records : List Record) : List Record :=
  List.insertionSort (fun a b => lexLe (titleKey a).data (titleKey b).data = true) records

/-- One table row of `generate_markdown` (book_index.py lines 130-134). -/
def rowOf (r : Record) : String :=
  "| " ++ r.title ++ " | " ++ r.author ++ " | " ++ toString r.pages ++ " | " ++
    r.size_human ++ " | " ++ r.sha256.take 12 ++ "... |"

/-- The book-list table body of `generate_markdown` (book_index.py lines
129-134): one row per record, sorted by lowercased title.  The heading, the
wall-clock timestamp and the summary lines that precede the table are fixed
text around the statistics and are not modelled. -/
def bookListRows (records : List Record) : List String :=
  (sortedRecords records).map rowOf

/-- The sixteen lowercase hexadecimal characters. -/
def hexChars : List Char :=
  "0123456789abcdef".data

/-- All eight words of a SHA-256 state are 32-bit values. -/
def H8lt (hs : H8) : Prop :=
  hs.a < 4294967296 ∧ hs.b < 4294967296 ∧ hs.c < 4294967296 ∧ hs.d < 4294967296 ∧
  hs.e < 4294967296 ∧ hs.f < 4294967296 ∧ hs.g < 4294967296 ∧ hs.h < 4294967296

/-- A Record that differs from others only in its page count; input material for
the statistics claims. -/
def pagesRec (p : ℤ) : Record :=
  ⟨"f.pdf", "/books/f.pdf", 0, "0.00 B", p, "T", "A", "d41d8cd98f00"⟩

/-- A Record that differs from others only in its title; input material for the
report-ordering claim. -/
def titledRec (t : String) : Record :=
  ⟨t ++ ".pdf", "/books/x.pdf", 1, "1.00 B", 1, t, "A", "0123456789abcdef0123"⟩

/-- A file whose `pdfinfo` output reports a negative page count. -/
def negPagesFile : FileEntry :=
  ⟨"neg.pdf", "/books/neg.pdf", 5, some [], some "Pages: -3"⟩

example : chunksOf 3 [1, 2, 3, 4, 5, 6, 7] = [[1, 2, 3], [4, 5, 6], [7]] := by decide
example : pathStem "book.pdf" = "book" := by decide
example : pathStem ".bashrc" = ".bashrc" := by decide
example : pathStem "a.tar.gz" = "a.tar" := by decide
example : human_size 0 = "0.00 B" := by decide
example : human_size 1023 = "1023.00 B" := by decide
example : human_size 1024 = "1.00 KB" := by decide
example : human_size 1048576 = "1.00 MB" := by decide
example : human_size 1125899906842624 = "1.00 PB" := by decide
example : extract_pdf_metadata "fileStem" none = ⟨"fileStem", "Unknown", 0⟩ := by decide
example : extract_pdf_metadata "fileStem" (some "") = ⟨"fileStem", "Unknown", 0⟩ := by decide
example :
    extract_pdf_metadata "stem" (some "Title: Good Book\nAuthor: Alice\nPages: ten") =
      ⟨"stem", "Unknown", 0⟩ := by decide
example :
    extract_pdf_metadata "stem" (some "Title: Good Book\nAuthor: Alice\nPages: 12") =
      ⟨"Good Book", "Alice", 12⟩ := by decide
example : extract_pdf_metadata "stem" (some "Title:\nAuthor:\nPages: 7") = ⟨"", "", 7⟩ := by decide
example : pyInt "-3" = some (-3) := by decide
example : pyInt "1_0" = some 10 := by decide
example : pyInt "_1" = none := by decide
example :
    compute_stats [] = ⟨0, 0, 0, "0.00 B", 0, "N/A", "N/A"⟩ := by decide

/-! ### Helper lemmas -/

lemma foldl_append_eq_flatten (ls : List (List α)) (a : List α) :
    ls.foldl (· ++ ·) a = a ++ ls.flatten := by
  induction ls generalizing a with
  | nil => simp
  | cons x xs ih => simp [List.foldl_cons, ih]

lemma chunksAux_flatten (k : ℕ) (l : List α) : ∀ (c : ℕ) (acc : List α),
    (chunksAux k c l acc).flatten = acc.reverse ++ l := by
  induction l with
  | nil =>
    intro c acc
    by_cases h : acc.isEmpty
    · simp_all [chunksAux, List.isEmpty_iff]
    · simp [chunksAux, h]
  | cons x xs ih =>
    intro c acc
    by_cases h : c ≤ 1
    · simp [chunksAux, h, ih]
    · simp [chunksAux, h, ih]

lemma chunksOf_flatten (k : ℕ) (l : List α) : (chunksOf k l).flatten = l := by
  simp [chunksOf, chunksAux_flatten]

lemma chunksOf_foldl_append (k : ℕ) (l : List α) :
    (chunksOf k l).foldl (· ++ ·) [] = l := by
  rw [foldl_append_eq_flatten, List.nil_append, chunksOf_flatten]

lemma sha256_file_eq (f : FileEntry) (b : List ℕ) (h : f.content = some b) :
    sha256_file f = Except.ok (sha256hex b) := by
  simp [sha256_file, h, chunksOf_foldl_append]

lemma lexLe_iff_not_lt : ∀ a b : List Char, lexLe a b = true ↔ ¬ List.lt b a := by
  intro a
  induction a with
  | nil =>
    intro b
    constructor
    · intro _ h; nomatch h
    · intro _; rfl
  | cons c cs ih =>
    intro b
    cases b with
    | nil =>
      constructor
      · intro h; simp [lexLe] at h
      · intro h; exact absurd (List.lt.nil c cs) h
    | cons d ds =>
      rcases lt_trichotomy c d with hv | he | hv
      · constructor
        · intro _ h
          cases h with
          | head _ _ hlt => exact lt_asymm hv hlt
          | tail h1 h2 h3 => exact h2 hv
        · intro _; simp [lexLe, hv]
      · subst he
        have hirr : ¬ c < c := lt_irrefl c
        constructor
        · intro h hlt
          have h' : lexLe cs ds = true := by simpa [lexLe, hirr] using h
          cases hlt with
          | head _ _ hlt' => exact hirr hlt'
          | tail h1 h2 h3 => exact (ih ds).mp h' h3
        · intro h
          have hnd : ¬ List.lt ds cs := fun hlt => h (List.lt.tail hirr hirr hlt)
          simpa [lexLe, hirr] using (ih ds).mpr hnd
      · constructor
        · intro h; simp [lexLe, hv, asymm hv] at h
        · intro h; exact absurd (List.lt.head ds cs hv) h

lemma lexLe_iff_le (s t : String) : lexLe s.data t.data = true ↔ s ≤ t := by
  have h1 : List.lt t.data s.data ↔ t.toList < s.toList := by
    rw [List.lt_iff_lex_lt]
    exact Iff.rfl
  calc lexLe s.data t.data = true
      ↔ ¬ List.lt t.data s.data := lexLe_iff_not_lt _ _
    _ ↔ ¬ (t.toList < s.toList) := not_congr h1
    _ ↔ s.toList ≤ t.toList := not_lt
    _ ↔ s ≤ t := String.le_iff_toList_le.symm

lemma extract_malformed_pages (stem out s : String)
    (h1 : dictGet (parseKV out) "Pages" = some s) (h2 : pyInt s = none) :
    extract_pdf_metadata stem (some out) = ⟨stem, "Unknown", 0⟩ := by
  simp [extract_pdf_metadata, h1, h2]

lemma extract_pages_nonneg (stem : String) (po : Option String)
    (h : ∀ out, po = some out → ∀ s, dictGet (parseKV out) "Pages" = some s →
      ∀ n : ℤ, pyInt s = some n → 0 ≤ n) :
    0 ≤ (extract_pdf_metadata stem po).pages := by
  cases po with
  | none => simp [extract_pdf_metadata]
  | some out =>
    cases hg : dictGet (parseKV out) "Pages" with
    | none => simp [extract_pdf_metadata, hg]
    | some s =>
      cases hi : pyInt s with
      | none => simp [extract_pdf_metadata, hg, hi]
      | some n =>
        simp [extract_pdf_metadata, hg, hi]
        exact h out rfl s hg n hi

lemma filter_map_pages (records : List Record) :
    (records.filter (fun r => 0 < r.pages)).map (·.pages) =
      (records.map (·.pages)).filter (fun p => 0 < p) := by
  induction records with
  | nil => rfl
  | cons r rs ih => by_cases h : 0 < r.pages <;> simp [List.filter_cons, h, ih]

lemma digitChar_isDigit : ∀ m : ℕ, m < 10 → (Nat.digitChar m).isDigit := by decide

lemma digitChar_mem_hexChars : ∀ m : ℕ, m < 16 → Nat.digitChar m ∈ hexChars := by decide

lemma wadd_lt (a b : ℕ) : wadd a b < 4294967296 :=
  Nat.mod_lt _ (by norm_num)

lemma compressBlock_H8lt (hs : H8) (blk : List ℕ) : H8lt (compressBlock hs blk) := by
  refine ⟨?_, ?_, ?_, ?_, ?_, ?_, ?_, ?_⟩ <;> exact wadd_lt _ _

lemma foldl_compress_H8lt (bs : List (List ℕ)) : ∀ hs : H8, H8lt hs →
    H8lt (bs.foldl (fun h b => compressBlock h (toWordsBE b)) hs) := by
  induction bs with
  | nil => intro hs h; exact h
  | cons b bs ih => intro hs _; exact ih _ (compressBlock_H8lt _ _)

lemma initH_H8lt : H8lt initH := by norm_num [H8lt, initH]

lemma sha256words_length (b : List ℕ) : (sha256words b).length = 8 := rfl

lemma sha256words_lt (b : List ℕ) : ∀ w ∈ sha256words b, w < 4294967296 := by
  have h := foldl_compress_H8lt (chunksOf 64 (padMsg b)) initH initH_H8lt
  intro w hw
  simp [sha256words] at hw
  obtain ⟨h1, h2, h3, h4, h5, h6, h7, h8⟩ := h
  rcases hw with rfl | rfl | rfl | rfl | rfl | rfl | rfl | rfl <;> assumption

lemma hexw_length (w : ℕ) : (hexw w).length = 8 := by simp [hexw]

lemma hexw_mem (w : ℕ) : ∀ c ∈ hexw w, c ∈ hexChars := by
  intro c hc
  simp [hexw] at hc
  obtain ⟨i, hi, rfl⟩ := hc
  exact digitChar_mem_hexChars _ (Nat.mod_lt _ (by norm_num))

lemma sha256hex_length (b : List ℕ) : (sha256hex b).length = 64 := by
  show ((sha256words b).map hexw).flatten.length = 64
  simp [sha256words, hexw_length]

lemma sha256hex_mem (b : List ℕ) : ∀ c ∈ (sha256hex b).data, c ∈ hexChars := by
  intro c hc
  have hc' : c ∈ ((sha256words b).map hexw).flatten := hc
  obtain ⟨l, hl, hcl⟩ := List.mem_flatten.mp hc'
  obtain ⟨w, _, rfl⟩ := List.mem_map.mp hl
  exact hexw_mem w c hcl

lemma humanSizeAux_spec (n : ℕ) : ∀ (us : List String) (d : ℕ), 0 < d →
    ∃ k, k ≤ us.length ∧
      humanSizeAux n d us = formatFrac2 n (d * 1024 ^ k) ++ (" " ++ (us ++ ["PB"]).getD k "PB") ∧
      (k < us.length → n < 1024 * (d * 1024 ^ k)) ∧
      (∀ j, j < k → 1024 * (d * 1024 ^ j) ≤ n) := by
  intro us
  induction us with
  | nil =>
    intro d _
    refine ⟨0, Nat.le_refl 0, ?_, fun h => absurd h (by simp), fun j hj => absurd hj (by omega)⟩
    simp [humanSizeAux]
  | cons u rest ih =>
    intro d hd
    by_cases h : n < 1024 * d
    · refine ⟨0, Nat.zero_le _, ?_, ?_, fun j hj => absurd hj (by omega)⟩
      · simp [humanSizeAux, h, String.append_assoc]
      · intro _; simpa using h
    · obtain ⟨k, hk, heq, hlt, hge⟩ := ih (1024 * d) (by positivity)
      refine ⟨k + 1, by simpa using Nat.succ_le_succ hk, ?_, ?_, ?_⟩
      · have hstep : humanSizeAux n d (u :: rest) = humanSizeAux n (1024 * d) rest := by
          simp [humanSizeAux, h]
        have harg : 1024 * d * 1024 ^ k = d * 1024 ^ (k + 1) := by ring
        rw [hstep, heq, harg]
        simp
      · intro hklen
        have hklen' : k < rest.length := by simpa [Nat.succ_lt_succ_iff] using hklen
        have h2 := hlt hklen'
        have harg : 1024 * (1024 * d * 1024 ^ k) = 1024 * (d * 1024 ^ (k + 1)) := by ring
        omega
      · intro j hj
        cases j with
        | zero => simpa using Nat.le_of_not_lt h
        | succ j' =>
          have h2 := hge j' (by omega)
          have harg : 1024 * (1024 * d * 1024 ^ j') = 1024 * (d * 1024 ^ (j' + 1)) := by ring
          omega

lemma build_index_ok : ∀ files : List FileEntry, (∀ f ∈ files, f.content ≠ none) →
    ∃ rs, build_index files = Except.ok rs := by
  intro files
  induction files with
  | nil => exact fun _ => ⟨[], rfl⟩
  | cons f fs ih =>
    intro h
    obtain ⟨b, hb⟩ := Option.ne_none_iff_exists'.mp (h f (by simp))
    obtain ⟨rs, hrs⟩ := ih (fun g hg => h g (by simp [hg]))
    exact ⟨{ filename := f.name, path := f.resolved, size_bytes := f.size,
             size_human := human_size f.size,
             pages := (extract_pdf_metadata (pathStem f.name) f.procOut).pages,
             title := (extract_pdf_metadata (pathStem f.name) f.procOut).title,
             author := (extract_pdf_metadata (pathStem f.name) f.procOut).author,
             sha256 := sha256hex b } :: rs,
           by simp [build_index, sha256_file_eq f b hb, hrs]⟩

lemma build_index_error : ∀ (files : List FileEntry) (f : FileEntry), f ∈ files →
    f.content = none → ∃ e, build_index files = Except.error e := by
  intro files
  induction files with
  | nil => intro f hf _; simp at hf
  | cons g fs ih =>
    intro f hf h
    rcases List.mem_cons.mp hf with rfl | hf'
    · exact ⟨f.resolved, by simp [build_index, sha256_file, h]⟩
    · obtain ⟨e, he⟩ := ih f hf' h
      cases hg : sha256_file g with
      | error e' => exact ⟨e', by simp [build_index, hg]⟩
      | ok d => exact ⟨e, by simp [build_index, hg, he]⟩

lemma build_index_pages : ∀ (files : List FileEntry) (rs : List Record),
    build_index files = Except.ok rs →
    (∀ f ∈ files, ∀ out, f.procOut = some out →
      ∀ s, dictGet (parseKV out) "Pages" = some s → ∀ n : ℤ, pyInt s = some n → 0 ≤ n) →
    ∀ r ∈ rs, 0 ≤ r.pages := by
  intro files
  induction files with
  | nil =>
    intro rs h _ r hr
    simp [build_index] at h
    subst h
    simp at hr
  | cons f fs ih =>
    intro rs h hp r hr
    cases hs : sha256_file f with
    | error e => simp [build_index, hs] at h
    | ok d =>
      cases hb : build_index fs with
      | error e => simp [build_index, hs, hb] at h
      | ok rest =>
        simp [build_index, hs, hb] at h
        subst h
        rcases List.mem_cons.mp hr with rfl | hr'
        · exact extract_pages_nonneg _ _ (hp f (by simp))
        · exact ih rest hb (fun g hg => hp g (by simp [hg])) r hr'

/-! ### Claim theorems -/

/-- C1: the Metadata Extractor is total and defensive: when the external process
fails to launch (`none`), when its output is empty, and when the `Pages` value
fails integer parsing (the only fallible step of the parse), the result is
exactly the fallback triple (stem, "Unknown", 0).  Being a total Lean function,
the model confirms that no exception escapes the component. -/
theorem extract_metadata_total :
    (∀ stem : String, extract_pdf_metadata stem none = ⟨stem, "Unknown", 0⟩) ∧
    (∀ stem : String, extract_pdf_metadata stem (some "") = ⟨stem, "Unknown", 0⟩) ∧
    (∀ stem out s, dictGet (parseKV out) "Pages" = some s → pyInt s = none →
      extract_pdf_metadata stem (some out) = ⟨stem, "Unknown", 0⟩) :=
  ⟨fun _ => rfl, fun _ => rfl, fun stem out s h1 h2 => extract_malformed_pages stem out s h1 h2⟩

/-- Witness for C1 at the spec's own example stem. -/
theorem extract_metadata_total_witness :
    extract_pdf_metadata "fileStem" none = ⟨"fileStem", "Unknown", 0⟩ ∧
    extract_pdf_metadata "fileStem" (some "") = ⟨"fileStem", "Unknown", 0⟩ ∧
    extract_pdf_metadata "fileStem" (some "Pages: twelve") = ⟨"fileStem", "Unknown", 0⟩ :=
  ⟨extract_metadata_total.1 "fileStem", extract_metadata_total.2.1 "fileStem",
   extract_metadata_total.2.2 "fileStem" "Pages: twelve" "twelve" (by decide) (by decide)⟩

/-- C2 counterexample: output with well-formed Title and Author lines but an
unparsable Pages value does NOT keep the parsed title and author; `int()` raises
inside the `try` block and the blanket handler returns the full fallback. -/
theorem malformed_pages_cex :
    extract_pdf_metadata "mybook" (some "Title: Good Book\nAuthor: Alice\nPages: ten") =
      ⟨"mybook", "Unknown", 0⟩ ∧
    extract_pdf_metadata "mybook" (some "Title: Good Book\nAuthor: Alice\nPages: ten") ≠
      ⟨"Good Book", "Alice", 0⟩ :=
  ⟨by decide, by decide⟩

/-- C2 amended: a present-but-malformed Pages value yields the full fallback
triple (stem, "Unknown", 0), discarding the parsed Title and Author; the other
mapped fields are kept with pages = 0 only when the Pages key is absent. -/
theorem malformed_pages_amended :
    (∀ stem out s, dictGet (parseKV out) "Pages" = some s → pyInt s = none →
      extract_pdf_metadata stem (some out) = ⟨stem, "Unknown", 0⟩) ∧
    extract_pdf_metadata "mybook" (some "Title: Good Book\nAuthor: Alice") =
      ⟨"Good Book", "Alice", 0⟩ :=
  ⟨fun stem out s h1 h2 => extract_malformed_pages stem out s h1 h2, by decide⟩

/-- Witness for the amended C2. -/
theorem malformed_pages_amended_witness :
    extract_pdf_metadata "other" (some "Author: Bob\nPages: 3a") = ⟨"other", "Unknown", 0⟩ :=
  malformed_pages_amended.1 "other" "Author: Bob\nPages: 3a" "3a" (by decide) (by decide)

/-- C3: for every byte count the Size Formatter returns a value with exactly two
decimal digits followed by a unit picked from B..PB by repeated division by 1024
until the value drops below 1024 (PB when the list is exhausted), and the five
example inputs of the spec render as stated. -/
theorem human_size_correct :
    (∀ n : ℕ, ∃ k : ℕ, k ≤ 5 ∧
      human_size n = formatFrac2 n (1024 ^ k) ++ (" " ++ unitOf k) ∧
      unitOf k ∈ ["B", "KB", "MB", "GB", "TB", "PB"] ∧
      (k < 5 → (n : ℚ) / 1024 ^ k < 1024) ∧
      (∀ j, j < k → 1024 ≤ (n : ℚ) / 1024 ^ j)) ∧
    (∀ n d : ℕ, ∃ intPart fracPart : String,
      formatFrac2 n d = intPart ++ "." ++ fracPart ∧ fracPart.length = 2 ∧
      ∀ c ∈ fracPart.data, c.isDigit) ∧
    human_size 0 = "0.00 B" ∧ human_size 1023 = "1023.00 B" ∧ human_size 1024 = "1.00 KB" ∧
    human_size 1048576 = "1.00 MB" ∧ human_size 1125899906842624 = "1.00 PB" := by
  refine ⟨?_, ?_, by decide, by decide, by decide, by decide, by decide⟩
  · intro n
    obtain ⟨k, hk, heq, hlt, hge⟩ := humanSizeAux_spec n ["B", "KB", "MB", "GB", "TB"] 1 one_pos
    have hk5 : k ≤ 5 := by simpa using hk
    refine ⟨k, hk5, ?_, ?_, ?_, ?_⟩
    · simpa [human_size, unitOf] using heq
    · have hmem : ∀ m : ℕ, m ≤ 5 → unitOf m ∈ ["B", "KB", "MB", "GB", "TB", "PB"] := by decide
      exact hmem k hk5
    · intro h5
      have h1 := hlt (by simpa using h5)
      rw [div_lt_iff₀ (by positivity)]
      calc (n : ℚ) < 1024 * (1 * 1024 ^ k) := by exact_mod_cast h1
        _ = 1024 * 1024 ^ k := by ring
    · intro j hj
      have h1 := hge j hj
      rw [le_div_iff₀ (by positivity)]
      calc (1024 : ℚ) * 1024 ^ j = 1024 * (1 * 1024 ^ j) := by ring
        _ ≤ n := by exact_mod_cast h1
  · intro n d
    refine ⟨toString (rhe2 (n * 100) d / 100),
      String.mk [Nat.digitChar (rhe2 (n * 100) d % 100 / 10), Nat.digitChar (rhe2 (n * 100) d % 10)],
      rfl, rfl, ?_⟩
    intro c hc
    have hc' : c = Nat.digitChar (rhe2 (n * 100) d % 100 / 10) ∨
        c = Nat.digitChar (rhe2 (n * 100) d % 10) := by simpa using hc
    rcases hc' with rfl | rfl
    · exact digitChar_isDigit _ (by omega)
    · exact digitChar_isDigit _ (by omega)

/-- Witness for C3: the universal part applied at 1024. -/
theorem human_size_correct_witness :
    ∃ k : ℕ, k ≤ 5 ∧
      human_size 1024 = formatFrac2 1024 (1024 ^ k) ++ (" " ++ unitOf k) ∧
      unitOf k ∈ ["B", "KB", "MB", "GB", "TB", "PB"] ∧
      (k < 5 → (1024 : ℚ) / 1024 ^ k < 1024) ∧
      (∀ j, j < k → 1024 ≤ (1024 : ℚ) / 1024 ^ j) :=
  human_size_correct.1 1024

/-- C4: total pages sums over all records while the average divides the page sum
of only the positive-page records by their number, degrading to 0 when no record
has positive pages; on pages [0, 100, 300] this gives average 200 and total 400. -/
theorem compute_stats_correct :
    (∀ records : List Record,
      (compute_stats records).total_pages = (records.map (·.pages)).sum ∧
      ((∀ r ∈ records, ¬ 0 < r.pages) → (compute_stats records).avg_pages = 0) ∧
      ((records.map (·.pages)).filter (fun p => 0 < p) ≠ [] →
        (compute_stats records).avg_pages =
          (((((records.map (·.pages)).filter (fun p => 0 < p)).sum : ℤ) : ℚ)) /
            ((records.map (·.pages)).filter (fun p => 0 < p)).length)) ∧
    (compute_stats [pagesRec 0, pagesRec 100, pagesRec 300]).avg_pages = 200 ∧
    (compute_stats [pagesRec 0, pagesRec 100, pagesRec 300]).total_pages = 400 := by
  refine ⟨?_, ?_, by decide⟩
  · intro records
    refine ⟨rfl, ?_, ?_⟩
    · intro h
      have hemp : records.filter (fun r => 0 < r.pages) = [] := by
        rw [List.filter_eq_nil_iff]
        simpa using h
      simp [compute_stats, hemp]
    · intro h
      have hne : ((records.filter (fun r => 0 < r.pages)).map (·.pages)) ≠ [] := by
        rw [filter_map_pages]; exact h
      simp only [compute_stats]
      rw [if_neg (by simpa [List.isEmpty_iff] using hne), filter_map_pages]
  · norm_num [compute_stats, pagesRec, List.filter]

/-- Witness for C4: the average formula applied to a one-record collection. -/
theorem compute_stats_correct_witness :
    (compute_stats [pagesRec 5]).avg_pages =
      (((([pagesRec 5].map (·.pages)).filter (fun p => 0 < p)).sum : ℤ) : ℚ) /
        (([pagesRec 5].map (·.pages)).filter (fun p => 0 < p)).length :=
  (compute_stats_correct.1 [pagesRec 5]).2.2 (by decide)

/-- C5: statistics of the empty record collection degrade gracefully: zero
count, totals and average, the zero-byte size string, and the "N/A" extremes. -/
theorem compute_stats_empty :
    compute_stats [] = ⟨0, 0, 0, "0.00 B", 0, "N/A", "N/A"⟩ := by decide

/-- C6: hashing depends only on the byte content (not the name or location), the
digest is the hex of the hash of the entire content (the chunked read loop loses
nothing), and every digest is 64 lowercase-hex characters of a 256-bit (eight
32-bit word) hash. -/
theorem hasher_content_addressed :
    (∀ f g : FileEntry, ∀ b : List ℕ, f.content = some b → g.content = some b →
      sha256_file f = sha256_file g) ∧
    (∀ f : FileEntry, ∀ b : List ℕ, f.content = some b →
      sha256_file f = Except.ok (sha256hex b)) ∧
    (∀ b : List ℕ, (sha256hex b).length = 64 ∧ ∀ c ∈ (sha256hex b).data, c ∈ hexChars) ∧
    (∀ b : List ℕ, (sha256words b).length = 8 ∧ ∀ w ∈ sha256words b, w < 4294967296) :=
  ⟨fun f g b hf hg => by rw [sha256_file_eq f b hf, sha256_file_eq g b hg],
   fun f b h => sha256_file_eq f b h,
   fun b => ⟨sha256hex_length b, sha256hex_mem b⟩,
   fun b => ⟨sha256words_length b, sha256words_lt b⟩⟩

/-- Witness for C6: two files with the same bytes but different names and paths
hash identically. -/
theorem hasher_content_addressed_witness :
    sha256_file ⟨"a.pdf", "/d1/a.pdf", 3, some [1, 2, 3], none⟩ =
      sha256_file ⟨"b.pdf", "/d2/b.pdf", 3, some [1, 2, 3], some "x"⟩ :=
  hasher_content_addressed.1 _ _ [1, 2, 3] rfl rfl

/-- C7: when every file is readable the Index Builder succeeds no matter what
the metadata process does (extraction failures are recovered locally), while a
single unreadable file makes the hashing error propagate out of `build_index`
and abort the whole run. -/
theorem hash_error_propagates :
    (∀ files : List FileEntry, (∀ f ∈ files, f.content ≠ none) →
      ∃ rs, build_index files = Except.ok rs) ∧
    (∀ files : List FileEntry, ∀ f ∈ files, f.content = none →
      ∃ e, build_index files = Except.error e) :=
  ⟨build_index_ok, build_index_error⟩

/-- Witness for C7: a run over a readable file with failed metadata succeeds; a
run containing an unreadable file errors. -/
theorem hash_error_propagates_witness :
    (∃ rs, build_index [⟨"ok.pdf", "/b/ok.pdf", 0, some [], none⟩] = Except.ok rs) ∧
    (∃ e, build_index [⟨"bad.pdf", "/b/bad.pdf", 0, none, some "Pages: 1"⟩] =
      Except.error e) :=
  ⟨hash_error_propagates.1 _ (by decide),
   hash_error_propagates.2 _ ⟨"bad.pdf", "/b/bad.pdf", 0, none, some "Pages: 1"⟩
     (List.mem_singleton.mpr rfl) rfl⟩

/-- C8 counterexample: an external process output of "Pages: -3" produces a
Record with a negative page count, so not every Record has a non-negative page
count for every possible process output. -/
theorem negative_pages_cex :
    ∃ rs, build_index [negPagesFile] = Except.ok rs ∧
      rs.map (·.pages) = [-3] ∧ ∃ r ∈ rs, r.pages < 0 := by
  refine ⟨_, rfl, rfl, ⟨_, List.mem_cons_self _ _, ?_⟩⟩
  decide

/-- C8 amended: every Record has a non-negative page count provided the external
process never reports a Pages value that parses to a negative integer; a
negative parsed value is stored as-is. -/
theorem pages_nonneg_amended :
    ∀ (files : List FileEntry) (rs : List Record), build_index files = Except.ok rs →
      (∀ f ∈ files, ∀ out, f.procOut = some out →
        ∀ s, dictGet (parseKV out) "Pages" = some s → ∀ n : ℤ, pyInt s = some n → 0 ≤ n) →
      ∀ r ∈ rs, 0 ≤ r.pages :=
  build_index_pages

/-- Witness for the amended C8: a run over a file reporting "Pages: 4" yields
only non-negative page counts. -/
theorem pages_nonneg_amended_witness :
    ∃ rs, build_index [⟨"ok.pdf", "/b/ok.pdf", 7, some [], some "Pages: 4"⟩] = Except.ok rs ∧
      ∀ r ∈ rs, 0 ≤ r.pages := by
  refine ⟨_, rfl, ?_⟩
  apply pages_nonneg_amended [⟨"ok.pdf", "/b/ok.pdf", 7, some [], some "Pages: 4"⟩] _ rfl
  intro f hf out hout s hs n hn
  rcases List.mem_singleton.mp hf with rfl
  have hout2 : some "Pages: 4" = some out := hout
  injection hout2 with hout'
  subst hout'
  have h4 : dictGet (parseKV "Pages: 4") "Pages" = some "4" := by decide
  rw [h4] at hs
  injection hs with hs'
  subst hs'
  have hp : pyInt "4" = some 4 := by decide
  rw [hp] at hn
  injection hn with hn'
  subst hn'
  decide

/-- C9: the report body lists exactly the Records (a permutation), in ascending
order of the lowercased titles, each row ending with the first 12 digest
characters and an ellipsis; on titles ["Zebra", "apple", "Mango"] the row order
is ["apple", "Mango", "Zebra"]. -/
theorem report_rows_sorted :
    (∀ records : List Record, ∃ l : List Record,
      bookListRows records = l.map rowOf ∧ l.Perm records ∧
      List.Sorted (fun a b : Record => pyLower a.title ≤ pyLower b.title) l) ∧
    (∀ r : Record, ∃ s : String, rowOf r = s ++ r.sha256.take 12 ++ "... |") ∧
    (sortedRecords [titledRec "Zebra", titledRec "apple", titledRec "Mango"]).map (·.title) =
      ["apple", "Mango", "Zebra"] ∧
    bookListRows [titledRec "Zebra", titledRec "apple", titledRec "Mango"] =
      [rowOf (titledRec "apple"), rowOf (titledRec "Mango"), rowOf (titledRec "Zebra")] := by
  refine ⟨?_, fun r => ⟨_, rfl⟩, by decide, by decide⟩
  intro records
  haveI hTot : IsTotal Record (fun a b : Record => lexLe (titleKey a).data (titleKey b).data = true) :=
    ⟨fun a b => by
      rcases le_total (titleKey a) (titleKey b) with h | h
      · exact Or.inl ((lexLe_iff_le _ _).mpr h)
      · exact Or.inr ((lexLe_iff_le _ _).mpr h)⟩
  haveI hTrans : IsTrans Record (fun a b : Record => lexLe (titleKey a).data (titleKey b).data = true) :=
    ⟨fun a b c hab hbc =>
      (lexLe_iff_le _ _).mpr (le_trans ((lexLe_iff_le _ _).mp hab) ((lexLe_iff_le _ _).mp hbc))⟩
  refine ⟨sortedRecords records, rfl, List.perm_insertionSort _ _, ?_⟩
  have hs := List.sorted_insertionSort
    (fun a b : Record => lexLe (titleKey a).data (titleKey b).data = true) records
  exact hs.imp (fun h => (lexLe_iff_le _ _).mp h)

/-- Witness for C9: the digest-truncation shape at a concrete record. -/
theorem report_rows_sorted_witness :
    ∃ s : String, rowOf (titledRec "apple") =
      s ++ (titledRec "apple").sha256.take 12 ++ "... |" :=
  report_rows_sorted.2.1 (titledRec "apple")

/-- C10: an empty (after trimming) Title or Author value in the process output is
returned as the empty string; the stem and "Unknown" defaults apply only when
the key is entirely absent from the parsed output. -/
theorem empty_field_value_kept :
    (∀ stem out, dictGet (parseKV out) "Title" = some "" →
      (∀ s, dictGet (parseKV out) "Pages" = some s → pyInt s ≠ none) →
      (extract_pdf_metadata stem (some out)).title = "") ∧
    (∀ stem out, dictGet (parseKV out) "Author" = some "" →
      (∀ s, dictGet (parseKV out) "Pages" = some s → pyInt s ≠ none) →
      (extract_pdf_metadata stem (some out)).author = "") ∧
    (∀ stem, extract_pdf_metadata stem (some "Title:\nAuthor:\nPages: 7") = ⟨"", "", 7⟩) ∧
    (∀ stem, extract_pdf_metadata stem (some "Title:   ") = ⟨"", "Unknown", 0⟩) := by
  refine ⟨?_, ?_, fun stem => rfl, fun stem => rfl⟩
  · intro stem out ht hp
    cases hg : dictGet (parseKV out) "Pages" with
    | none => simp [extract_pdf_metadata, hg, ht]
    | some s =>
      cases hi : pyInt s with
      | none => exact absurd hi (hp s hg)
      | some n => simp [extract_pdf_metadata, hg, hi, ht]
  · intro stem out ha hp
    cases hg : dictGet (parseKV out) "Pages" with
    | none => simp [extract_pdf_metadata, hg, ha]
    | some s =>
      cases hi : pyInt s with
      | none => exact absurd hi (hp s hg)
      | some n => simp [extract_pdf_metadata, hg, hi, ha]

/-- Witness for C10: a Title line with an empty value yields an empty title even
though a stem is available. -/
theorem empty_field_value_kept_witness :
    (extract_pdf_metadata "stemX" (some "Title:\nPages: 2")).title = "" :=
  empty_field_value_kept.1 "stemX" "Title:\nPages: 2" (by decide)
    (fun s hs => by
      have h2 : dictGet (parseKV "Title:\nPages: 2") "Pages" = some "2" := by decide
      rw [h2] at hs
      injection hs with hs'
      subst hs'
      decide)

set_option maxRecDepth 100000 in
/-- Sanity check of the SHA-256 model against the standard empty-message test
vector. -/
theorem sha256hex_empty_vector :
    sha256hex [] = "e3b0c44298fc1c149afbf4c8996fb92427ae41e4649b934ca495991b7852b855" := by
  decide

set_option maxRecDepth 100000 in
/-- Sanity check of the SHA-256 model against the standard "abc" test vector. -/
theorem sha256hex_abc_vector :
    sha256hex [0x61, 0x62, 0x63] =
      "ba7816bf8f01cfea414140de5dae2223b00361a396177a9cb410ff61f20015ad" := by
  decide
